import Mathlib

/-!
# Shopping cart manager (`src/script.js`)

A shallow embedding of the cart state manager of `script.js` and of the parts
of the platform it talks to (the `localStorage` entry `cart`, `JSON.stringify`
and `JSON.parse`, the part of the page that `displayCart` writes), followed by
theorems about it.

Conventions of the embedding.

* JavaScript strings are Lean strings (sequences of Unicode scalar values).
* JavaScript numbers are exact decimals (`Decimal`); arithmetic on them is
  exact arithmetic (`ℚ`).  The embedding agrees with IEEE-754 doubles wherever
  operands and results are integers below `2 ^ 53` in magnitude; rounding of
  doubles, `NaN` and the infinities are not part of it.
* The handlers are embedded on the typed fragment of stored values: a stored
  value that is the serialisation of a sequence of cart items.  On any other
  stored value the handlers depend on JavaScript coercions that are not
  embedded, and the embedded handler answers `none`.  `getCart` and `saveCart`
  themselves are embedded on every stored text.
-/

namespace Cart

/-! ## Numbers -/

/-- The decimal digit character of a number below ten. -/
def digitChar (d : Nat) : Char :=
  match d with
  | 0 => '0' | 1 => '1' | 2 => '2' | 3 => '3' | 4 => '4'
  | 5 => '5' | 6 => '6' | 7 => '7' | 8 => '8' | _ => '9'

/-- The value of a decimal digit character (`0` for any other character). -/
def digitVal (c : Char) : Nat := c.toNat - 48

/-- Is the character one of `0` .. `9`? -/
def isDigit (c : Char) : Bool := decide (48 ≤ c.toNat) && decide (c.toNat ≤ 57)

/-- Decimal digits of `n`, most significant first, pushed in front of `acc`. -/
def natDigitsAux : Nat → Nat → List Char → List Char
  | 0, _, acc => acc
  | fuel + 1, n, acc =>
    if n < 10 then digitChar n :: acc
    else natDigitsAux fuel (n / 10) (digitChar (n % 10) :: acc)

/-- Decimal digits of a natural number, without leading zeros (`0` is `"0"`). -/
def natDigits (n : Nat) : List Char := natDigitsAux (n + 1) n []

/-- The number written by a list of decimal digits. -/
def digitsToNat (cs : List Char) : Nat := cs.foldl (fun a c => 10 * a + digitVal c) 0

/-- `Number.prototype.toString` on an integer: the text put into template literals for
an integer number. -/
def intToText (n : Int) : List Char :=
  (if n < 0 then ['-'] else []) ++ natDigits n.natAbs

/-- An exact decimal number `mant / 10 ^ scale` in lowest terms of the scale. -/
structure Decimal where
  mant : Int
  scale : Nat
  norm : scale = 0 ∨ mant % 10 ≠ 0
deriving DecidableEq

namespace Decimal

/-- An integer as a decimal. -/
def ofInt (n : Int) : Decimal := ⟨n, 0, Or.inl rfl⟩

/-- The decimal `m / 10 ^ k`, trailing zeros of the fraction removed. -/
def normalize (m : Int) : Nat → Decimal
  | 0 => ⟨m, 0, Or.inl rfl⟩
  | k + 1 => if h : m % 10 = 0 then normalize (m / 10) k else ⟨m, k + 1, Or.inr h⟩

/-- The value of a decimal. -/
def toRat (d : Decimal) : ℚ := (d.mant : ℚ) / (10 : ℚ) ^ d.scale

/-- The text of a decimal: an optional sign, the integer part, and when the scale is
positive a point followed by exactly `scale` digits. -/
def render (d : Decimal) : List Char :=
  let ds := natDigits d.mant.natAbs
  (if d.mant < 0 then ['-'] else []) ++
    (if d.scale = 0 then ds
     else if ds.length ≤ d.scale then
       '0' :: '.' :: (List.replicate (d.scale - ds.length) '0' ++ ds)
     else ds.take (ds.length - d.scale) ++ '.' :: ds.drop (ds.length - d.scale))

end Decimal

/-! ## JSON values and `JSON.stringify` -/

/-- The values `JSON.parse` produces. Objects list their members in property order. -/
inductive JSON where
  | null
  | bool (b : Bool)
  | num (d : Decimal)
  | str (s : String)
  | arr (xs : List JSON)
  | obj (kvs : List (String × JSON))

/-- Hexadecimal digit (lower case) of a number below sixteen. -/
def hexChar (d : Nat) : Char :=
  if d < 10 then digitChar d
  else match d with
    | 10 => 'a' | 11 => 'b' | 12 => 'c' | 13 => 'd' | 14 => 'e' | _ => 'f'

/-- The text of one character inside a JSON string literal, as `JSON.stringify` writes it. -/
def escapeChar (c : Char) : List Char :=
  if c = '"' then ['\\', '"']
  else if c = '\\' then ['\\', '\\']
  else if c = '\x08' then ['\\', 'b']
  else if c = '\x0c' then ['\\', 'f']
  else if c = '\n' then ['\\', 'n']
  else if c = '\r' then ['\\', 'r']
  else if c = '\t' then ['\\', 't']
  else if c.toNat < 32 then ['\\', 'u', '0', '0', hexChar (c.toNat / 16), hexChar (c.toNat % 16)]
  else [c]

/-- A quoted JSON string literal. -/
def quote (s : String) : List Char :=
  '"' :: (s.data.flatMap escapeChar ++ ['"'])

mutual
/-- The text `JSON.stringify` writes for a value (no indentation). -/
def stringify : JSON → List Char
  | .null => ['n', 'u', 'l', 'l']
  | .bool true => ['t', 'r', 'u', 'e']
  | .bool false => ['f', 'a', 'l', 's', 'e']
  | .num d => d.render
  | .str s => quote s
  | .arr xs => '[' :: (stringifyElems xs ++ [']'])
  | .obj kvs => '{' :: (stringifyMembers kvs ++ ['}'])
/-- The elements of an array, separated by commas. -/
def stringifyElems : List JSON → List Char
  | [] => []
  | [x] => stringify x
  | x :: y :: rest => stringify x ++ ',' :: stringifyElems (y :: rest)
/-- The members of an object, separated by commas. -/
def stringifyMembers : List (String × JSON) → List Char
  | [] => []
  | [(k, x)] => quote k ++ ':' :: stringify x
  | (k, x) :: y :: rest => quote k ++ ':' :: (stringify x ++ ',' :: stringifyMembers (y :: rest))
end

/-! ## `JSON.parse` -/

/-- JSON white space. -/
def isWs (c : Char) : Bool := c = ' ' || c = '\t' || c = '\n' || c = '\r'

/-- Drop leading white space. -/
def skipWs : List Char → List Char
  | [] => []
  | c :: cs => if isWs c then skipWs cs else c :: cs

/-- The longest prefix of decimal digits, and what follows it. -/
def takeDigits : List Char → List Char × List Char
  | [] => ([], [])
  | c :: cs => if isDigit c then ((c :: (takeDigits cs).1), (takeDigits cs).2) else ([], c :: cs)

/-- The value of a hexadecimal digit, in either case. -/
def hexVal (c : Char) : Option Nat :=
  if isDigit c then some (digitVal c)
  else if 97 ≤ c.toNat ∧ c.toNat ≤ 102 then some (c.toNat - 87)
  else if 65 ≤ c.toNat ∧ c.toNat ≤ 70 then some (c.toNat - 55)
  else none

/-- The code unit written by four hexadecimal digits. -/
def hex4 (a b c d : Char) : Option Nat :=
  match hexVal a, hexVal b, hexVal c, hexVal d with
  | some x, some y, some z, some w => some (((x * 16 + y) * 16 + z) * 16 + w)
  | _, _, _, _ => none

/-- The character a one-letter escape stands for. -/
def unescape (e : Char) : Option Char :=
  if e = '"' then some '"'
  else if e = '\\' then some '\\'
  else if e = '/' then some '/'
  else if e = 'b' then some '\x08'
  else if e = 'f' then some '\x0c'
  else if e = 'n' then some '\n'
  else if e = 'r' then some '\r'
  else if e = 't' then some '\t'
  else none

/-- The body of a string literal after its opening quote, as UTF-16 code units of escapes
and code points of plain characters, up to the closing quote; and the text after it. -/
def parseStringBody : List Char → Option (List Nat × List Char)
  | [] => none
  | c :: cs =>
    if c = '"' then some ([], cs)
    else if c = '\\' then
      match cs with
      | [] => none
      | e :: r =>
        if e = 'u' then
          match r with
          | h1 :: h2 :: h3 :: h4 :: r1 =>
            match hex4 h1 h2 h3 h4 with
            | none => none
            | some n => (parseStringBody r1).map (fun p => (n :: p.1, p.2))
          | _ => none
        else
          match unescape e with
          | none => none
          | some ch => (parseStringBody r).map (fun p => (ch.toNat :: p.1, p.2))
    else if c.toNat < 32 then none
    else (parseStringBody cs).map (fun p => (c.toNat :: p.1, p.2))

/-- Is the code unit a high surrogate? -/
def isHighSurrogate (n : Nat) : Bool := decide (55296 ≤ n) && decide (n ≤ 56319)

/-- Is the code unit a low surrogate? -/
def isLowSurrogate (n : Nat) : Bool := decide (56320 ≤ n) && decide (n ≤ 57343)

/-- The characters of a sequence of code units: a surrogate pair is one character, a
surrogate without its partner reads as U+FFFD. -/
def decodeUnits : List Nat → List Char
  | [] => []
  | [n] => [if isHighSurrogate n || isLowSurrogate n then Char.ofNat 65533 else Char.ofNat n]
  | n :: m :: rest =>
    if isHighSurrogate n && isLowSurrogate m then
      Char.ofNat (65536 + (n - 55296) * 1024 + (m - 56320)) :: decodeUnits rest
    else if isHighSurrogate n || isLowSurrogate n then
      Char.ofNat 65533 :: decodeUnits (m :: rest)
    else Char.ofNat n :: decodeUnits (m :: rest)

/-- A string literal after its opening quote: its value and the text after it. -/
def parseString (cs : List Char) : Option (String × List Char) :=
  (parseStringBody cs).map (fun p => (String.mk (decodeUnits p.1), p.2))

/-- The exponent part of a number literal, if there is one. -/
def parseExponent (cs : List Char) : Option (Int × List Char) :=
  match cs with
  | [] => some (0, [])
  | c :: r =>
    if c = 'e' ∨ c = 'E' then
      match r with
      | [] => none
      | s :: r1 =>
        if s = '-' then
          (if (takeDigits r1).1 = [] then none
           else some (-(digitsToNat (takeDigits r1).1 : Int), (takeDigits r1).2))
        else if s = '+' then
          (if (takeDigits r1).1 = [] then none
           else some ((digitsToNat (takeDigits r1).1 : Int), (takeDigits r1).2))
        else
          (if (takeDigits r).1 = [] then none
           else some ((digitsToNat (takeDigits r).1 : Int), (takeDigits r).2))
    else some (0, c :: r)

/-- The fraction part of a number literal, if there is one: its digits and the rest. -/
def parseFraction (cs : List Char) : Option (List Char × List Char) :=
  match cs with
  | [] => some ([], [])
  | c :: r =>
    if c = '.' then
      (if (takeDigits r).1 = [] then none else some ((takeDigits r).1, (takeDigits r).2))
    else some ([], c :: r)

/-- The decimal `m * 10 ^ e / 10 ^ k`. -/
def Decimal.ofParts (m : Int) (k : Nat) (e : Int) : Decimal :=
  if (k : Int) ≤ e then Decimal.normalize (m * 10 ^ (e - k).toNat) 0
  else Decimal.normalize m ((k : Int) - e).toNat

/-- A number literal without its sign: integer part (no superfluous leading zero), optional
fraction, optional exponent. The result is the unsigned mantissa data. -/
def parseUnsigned (neg : Bool) (cs : List Char) : Option (Decimal × List Char) :=
  match cs with
  | [] => none
  | c :: r =>
    if isDigit c then
      let ip : List Char × List Char :=
        if c = '0' then ([c], r) else (c :: (takeDigits r).1, (takeDigits r).2)
      match parseFraction ip.2 with
      | none => none
      | some (fd, r1) =>
        match parseExponent r1 with
        | none => none
        | some (e, r2) =>
          let m : Int := digitsToNat (ip.1 ++ fd)
          some (Decimal.ofParts (if neg then -m else m) fd.length e, r2)
    else none

/-- A JSON number literal. -/
def parseNumber (cs : List Char) : Option (Decimal × List Char) :=
  match cs with
  | [] => none
  | c :: r => if c = '-' then parseUnsigned true r else parseUnsigned false (c :: r)

/-- The array index a property key stands for, if it is one (a canonical decimal below
`2 ^ 32 - 1`); such keys are enumerated first, in ascending order. -/
def arrayIndex (k : String) : Option Nat :=
  if k.data.all isDigit && k.data == natDigits (digitsToNat k.data)
      && decide (digitsToNat k.data < 4294967295) then
    some (digitsToNat k.data)
  else none

/-- Put an array-index property in its place among the properties of an object. -/
def insertIndex (n : Nat) (k : String) (v : JSON) :
    List (String × JSON) → List (String × JSON)
  | [] => [(k, v)]
  | p :: ps =>
    match arrayIndex p.1 with
    | some m => if m < n then p :: insertIndex n k v ps else (k, v) :: p :: ps
    | none => (k, v) :: p :: ps

/-- Define property `k` of an object under construction: an existing property keeps its
place and takes the new value, an array index goes among the indices, any other key goes
last. -/
def defineProperty (o : List (String × JSON)) (k : String) (v : JSON) :
    List (String × JSON) :=
  if o.any (fun p => p.1 = k) then o.map (fun p => if p.1 = k then (k, v) else p)
  else match arrayIndex k with
    | some n => insertIndex n k v o
    | none => o ++ [(k, v)]

/-- The property list of the object built from members in source order. -/
def propertyOrder (ms : List (String × JSON)) : List (String × JSON) :=
  ms.foldl (fun o p => defineProperty o p.1 p.2) []

/-- The three literal names. -/
def parseLiteral (cs : List Char) : Option (JSON × List Char) :=
  match cs with
  | 'n' :: 'u' :: 'l' :: 'l' :: r => some (JSON.null, r)
  | 't' :: 'r' :: 'u' :: 'e' :: r => some (JSON.bool true, r)
  | 'f' :: 'a' :: 'l' :: 's' :: 'e' :: r => some (JSON.bool false, r)
  | _ => none

mutual
/-- One JSON value at the head of the text, and the text after it. The first argument
bounds the nesting that is followed. -/
def parseValue : Nat → List Char → Option (JSON × List Char)
  | 0, _ => none
  | fuel + 1, cs =>
    match skipWs cs with
    | [] => none
    | c :: r =>
      if c = '"' then (parseString r).map (fun p => (JSON.str p.1, p.2))
      else if c = '[' then
        match skipWs r with
        | [] => none
        | d :: r1 =>
          if d = ']' then some (JSON.arr [], r1)
          else (parseElements fuel (d :: r1)).map (fun p => (JSON.arr p.1, p.2))
      else if c = '{' then
        match skipWs r with
        | [] => none
        | d :: r1 =>
          if d = '}' then some (JSON.obj [], r1)
          else (parseMembers fuel (d :: r1)).map (fun p => (JSON.obj (propertyOrder p.1), p.2))
      else if c = '-' ∨ isDigit c then
        (parseNumber (c :: r)).map (fun p => (JSON.num p.1, p.2))
      else parseLiteral (c :: r)
/-- The elements of an array up to and including its closing bracket. -/
def parseElements : Nat → List Char → Option (List JSON × List Char)
  | 0, _ => none
  | fuel + 1, cs =>
    match parseValue fuel cs with
    | none => none
    | some (v, r) =>
      match skipWs r with
      | [] => none
      | c :: r1 =>
        if c = ',' then (parseElements fuel r1).map (fun p => (v :: p.1, p.2))
        else if c = ']' then some ([v], r1)
        else none
/-- The members of an object up to and including its closing brace, in source order. -/
def parseMembers : Nat → List Char → Option (List (String × JSON) × List Char)
  | 0, _ => none
  | fuel + 1, cs =>
    match skipWs cs with
    | [] => none
    | q :: r =>
      if q = '"' then
        match parseString r with
        | none => none
        | some (k, r1) =>
          match skipWs r1 with
          | [] => none
          | c :: r2 =>
            if c = ':' then
              match parseValue fuel r2 with
              | none => none
              | some (v, r3) =>
                match skipWs r3 with
                | [] => none
                | d :: r4 =>
                  if d = ',' then
                    (parseMembers fuel r4).map (fun p => ((k, v) :: p.1, p.2))
                  else if d = '}' then some ([(k, v)], r4)
                  else none
            else none
      else none
end

/-- `JSON.parse`: the value a text denotes, `none` when the text is not JSON (the call
throws a `SyntaxError`). Every value, array element and object member passes at least one
character, so twice the length of the text bounds the nesting. -/
def parse (s : String) : Option JSON :=
  match parseValue (2 * s.data.length + 2) s.data with
  | none => none
  | some (v, r) => if skipWs r = [] then some v else none

/-! ## The persisted store -/

/-- The browser storage as the script sees it: the text under the key `cart` (`none` when
the key is absent), whether every access to the storage area throws, and whether writing
throws because the quota is used up. -/
structure Storage where
  item : Option String
  denied : Bool
  full : Bool
deriving DecidableEq

/-- The function `getCart`: the parsed entry, or the empty array when the entry is absent or
empty, or when reading or parsing throws. -/
def getCart (st : Storage) : JSON :=
  if st.denied then JSON.arr []
  else
    match st.item with
    | none => JSON.arr []
    | some cartData =>
      if cartData = "" then JSON.arr []
      else
        match parse cartData with
        | some v => v
        | none => JSON.arr []

/-- The function `saveCart`: write the serialised cart; a write that throws is logged and
leaves the store as it was. -/
def saveCart (st : Storage) (cart : JSON) : Storage :=
  if st.denied || st.full then st
  else { st with item := some (String.mk (stringify cart)) }

/-! ## Cart items -/

/-- One line of the cart. -/
structure CartItem where
  id : String
  name : String
  price : Decimal
  image : String
  quantity : Int
deriving DecidableEq

/-- The object `addToCart` pushes for an item, properties in the order it writes them. -/
def CartItem.toJSON (item : CartItem) : JSON :=
  JSON.obj [("id", JSON.str item.id), ("name", JSON.str item.name),
    ("price", JSON.num item.price), ("image", JSON.str item.image),
    ("quantity", JSON.num (Decimal.ofInt item.quantity))]

/-- A sequence of cart items as a JSON array. -/
def cartToJSON (cart : List CartItem) : JSON := JSON.arr (cart.map CartItem.toJSON)

/-- The cart item a JSON value is, if it is one. -/
def CartItem.ofJSON : JSON → Option CartItem
  | JSON.obj [(k1, JSON.str id), (k2, JSON.str name), (k3, JSON.num price),
      (k4, JSON.str image), (k5, JSON.num quantity)] =>
    if k1 = "id" ∧ k2 = "name" ∧ k3 = "price" ∧ k4 = "image" ∧ k5 = "quantity"
        ∧ quantity.scale = 0 then
      some ⟨id, name, price, image, quantity.mant⟩
    else none
  | _ => none

/-- The cart items of a list of JSON values, if all of them are cart items. -/
def itemsOfJSON : List JSON → Option (List CartItem)
  | [] => some []
  | x :: xs =>
    match CartItem.ofJSON x, itemsOfJSON xs with
    | some item, some items => some (item :: items)
    | _, _ => none

/-- The sequence of cart items a JSON value is, if it is one. -/
def cartOfJSON : JSON → Option (List CartItem)
  | JSON.arr xs => itemsOfJSON xs
  | _ => none

/-- The persisted cart: what `getCart` returns, when that is a sequence of cart items. -/
def loadCart (st : Storage) : Option (List CartItem) := cartOfJSON (getCart st)

/-! ## `addToCart` -/

/-- Apply `f` to the first element that satisfies `p`: an update of the object that
`Array.prototype.find` returned. -/
def modifyFirst (p : CartItem → Bool) (f : CartItem → CartItem) : List CartItem → List CartItem
  | [] => []
  | x :: xs => if p x then f x :: xs else x :: modifyFirst p f xs

/-- The cart `addToCart` saves: the first item with the id gets one more, or a new item
with quantity one is pushed. -/
def addItem (cart : List CartItem) (id name : String) (price : Decimal) (image : String) :
    List CartItem :=
  match cart.find? (fun item => decide (item.id = id)) with
  | some _ => modifyFirst (fun item => decide (item.id = id))
      (fun item => { item with quantity := item.quantity + 1 }) cart
  | none => cart ++ [⟨id, name, price, image, 1⟩]

/-- The count `addToCart` reports: the quantities summed from zero. -/
def totalItems (cart : List CartItem) : Int :=
  cart.foldl (fun sum item => sum + item.quantity) 0

/-- The function `addToCart`: the store after the call and the text of the alert. -/
def addToCart (st : Storage) (id name : String) (price : Decimal) (image : String) :
    Option (Storage × String) :=
  match loadCart st with
  | none => none
  | some cart =>
    some (saveCart st (cartToJSON (addItem cart id name price image)),
      name ++ " added to cart! (Total items: "
        ++ String.mk (intToText (totalItems (addItem cart id name price image))) ++ ")")

/-! ## The cart page -/

/-- The method `toFixed(2)`: the nearest number of hundredths (the larger one on a tie) of
the magnitude, written with exactly two digits after the point. -/
def toFixed2 (x : ℚ) : List Char :=
  let n : Nat := (Rat.floor ((if x < 0 then -x else x) * 100 + 1 / 2)).toNat
  let ds := natDigits n
  (if x < 0 then ['-'] else []) ++
    (if ds.length ≤ 2 then '0' :: '.' :: (List.replicate (2 - ds.length) '0' ++ ds)
     else ds.take (ds.length - 2) ++ '.' :: ds.drop (ds.length - 2))

/-- A rendered `.cart-item` row: the product id in its data set and the texts written into
its markup. -/
structure Row where
  productId : String
  image : String
  name : String
  lineTotal : String
  quantity : String
deriving DecidableEq

/-- The row `displayCart` builds for an item. -/
def renderRow (item : CartItem) : Row :=
  { productId := item.id
    image := item.image
    name := item.name
    lineTotal := "$" ++ String.mk (toFixed2 (item.price.toRat * item.quantity))
    quantity := String.mk (intToText item.quantity) }

/-- A child of the cart list element. -/
inductive ListChild where
  | message (text : String)
  | item (row : Row)
deriving DecidableEq

/-- A node of the page next to the total element. -/
inductive Node where
  | text (content : String)
  | element (tag : String) (children : List Node)

mutual
/-- Does the node, or one of its descendants, match the selector `p`? -/
def Node.hasP : Node → Bool
  | Node.text _ => false
  | Node.element tag children => decide (tag = "p") || Node.anyHasP children
/-- Does one of the nodes, or one of their descendants, match the selector `p`? -/
def Node.anyHasP : List Node → Bool
  | [] => false
  | n :: ns => Node.hasP n || Node.anyHasP ns
end

/-- The total element (`.text-right .text-yellow-600`, looked up once when the page loads)
with its current parent: the tag of the parent, the siblings before and after the total
element, and the tag and text of the total element itself. -/
structure TotalRegion where
  parentTag : String
  before : List Node
  tag : String
  text : String
  after : List Node

/-- The parts of the cart page the script reads and writes: the children of `#cart-list`
and of the `.space-y-6` container (`none` when the element is missing; the two are taken
to be different elements, neither inside the other nor around the total element), the
total element, and whether click handlers are attached to the controls of the rows. -/
structure Page where
  cartList : Option (List ListChild)
  exampleContainer : Option (List Node)
  total : Option TotalRegion
  interactive : Bool

/-- The loop of `displayCart`: rows appended, and `total` and `itemCount` accumulated, item
by item. -/
def renderItems (cart : List CartItem) : List Row × ℚ × Int :=
  cart.foldl (fun acc item =>
    (acc.1 ++ [renderRow item], acc.2.1 + item.price.toRat * item.quantity,
      acc.2.2 + item.quantity)) ([], 0, 0)

/-- The text `displayCart` gives the subtotal paragraph. -/
def subtotalLabel (itemCount : Int) : String :=
  "Subtotal (" ++ String.mk (intToText itemCount) ++ " items): "

/-- The update of the total in `displayCart`: the text of the total element is set; then
the first `p` below the parent of the total element gets the subtotal text and the total
element as its last child. The result says whether the step ran to its end: when the total
element itself is that `p`, appending it to itself throws. -/
def updateTotal (t : TotalRegion) (total : ℚ) (itemCount : Int) : TotalRegion × Bool :=
  let t1 : TotalRegion := { t with text := "$" ++ String.mk (toFixed2 total) }
  if Node.anyHasP t1.before then
    ({ t1 with parentTag := "p", before := [Node.text (subtotalLabel itemCount)], after := [] },
      true)
  else if t1.tag = "p" then ({ t1 with text := subtotalLabel itemCount }, false)
  else if Node.anyHasP t1.after then
    ({ t1 with parentTag := "p", before := [Node.text (subtotalLabel itemCount)], after := [] },
      true)
  else (t1, true)

/-- The function `displayCart`. -/
def displayCart (st : Storage) (page : Page) : Option Page :=
  match loadCart st with
  | none => none
  | some cart =>
    let cleared : Page :=
      { page with
        cartList := page.cartList.map (fun _ => [])
        exampleContainer := page.exampleContainer.map (fun _ => []) }
    if cart.length = 0 then
      some { cleared with
        cartList := cleared.cartList.map (fun l => l ++ [ListChild.message "Your cart is empty."])
        total := cleared.total.map (fun t => { t with text := "$0.00" })
        interactive := false }
    else
      let r := renderItems cart
      let listed : Page :=
        { cleared with cartList := cleared.cartList.map (fun l => l ++ r.1.map ListChild.item) }
      match listed.total with
      | none => some { listed with interactive := true }
      | some t =>
        some { listed with
          total := some (updateTotal t r.2.1 r.2.2).1
          interactive := (updateTotal t r.2.1 r.2.2).2 }

/-! ## The handlers of the cart page -/

/-- White space that `parseInt` skips. -/
def isStrWs (c : Char) : Bool :=
  c = ' ' || c = '\t' || c = '\n' || c = '\r' || c = '\x0b' || c = '\x0c'
    || c.toNat = 160 || c.toNat = 5760 || (decide (8192 ≤ c.toNat) && decide (c.toNat ≤ 8202))
    || c.toNat = 8232 || c.toNat = 8233 || c.toNat = 8239 || c.toNat = 8287
    || c.toNat = 12288 || c.toNat = 65279

/-- Drop leading white space of a string. -/
def skipStrWs : List Char → List Char
  | [] => []
  | c :: cs => if isStrWs c then skipStrWs cs else c :: cs

/-- The longest prefix of hexadecimal digits, read as a number (`none` when it is empty). -/
def hexRun : List Char → Option Nat → Option Nat
  | [], acc => acc
  | c :: cs, acc =>
    match hexVal c with
    | some d => hexRun cs (some (16 * acc.getD 0 + d))
    | none => acc

/-- The digits of `parseInt` without radix argument: after `0x` hexadecimal digits,
otherwise decimal digits; `none` when there is no digit. -/
def parseIntDigits (cs : List Char) : Option Nat :=
  match cs with
  | a :: b :: r =>
    if a = '0' ∧ (b = 'x' ∨ b = 'X') then hexRun r none
    else if (takeDigits (a :: b :: r)).1 = [] then none
    else some (digitsToNat (takeDigits (a :: b :: r)).1)
  | _ => if (takeDigits cs).1 = [] then none else some (digitsToNat (takeDigits cs).1)

/-- The function `parseInt` of one argument: `none` stands for `NaN`. -/
def parseInt (s : String) : Option Int :=
  match skipStrWs s.data with
  | [] => none
  | c :: r =>
    if c = '-' then (parseIntDigits r).map (fun n => -Int.ofNat n)
    else if c = '+' then (parseIntDigits r).map Int.ofNat
    else (parseIntDigits (c :: r)).map Int.ofNat

/-- The function `updateQuantity`, given the class list of the clicked button and the row
that is its closest `.cart-item`. A quantity text that `parseInt` reads as `NaN` is outside
the embedding. -/
def updateQuantity (st : Storage) (page : Page) (classList : List String)
    (cartItemElement : Option Row) : Option (Storage × Page) :=
  match cartItemElement with
  | none => some (st, page)
  | some row =>
    match parseInt row.quantity with
    | none => none
    | some quantity0 =>
      let quantity : Int :=
        if classList.contains "increase" then quantity0 + 1
        else if classList.contains "decrease" && decide (quantity0 > 1) then quantity0 - 1
        else quantity0
      match loadCart st with
      | none => none
      | some cart =>
        let st1 := saveCart st (cartToJSON
          (modifyFirst (fun item => decide (item.id = row.productId))
            (fun item => { item with quantity := quantity }) cart))
        (displayCart st1 page).map (fun pg => (st1, pg))

/-- The class list of the increase button of a row. -/
def increaseButton : List String :=
  ["quantity-btn", "increase", "bg-gray-300", "px-3", "py-1", "rounded"]

mutual
/-- A value as `JSON.parse` builds it: in every object the keys are distinct and in
property order (here: none of them is an array index). -/
def JSON.Canonical : JSON → Prop
  | JSON.arr xs => JSON.AllCanonical xs
  | JSON.obj kvs =>
    JSON.MembersCanonical kvs ∧ (kvs.map Prod.fst).Nodup ∧ ∀ p ∈ kvs, arrayIndex p.1 = none
  | _ => True
/-- All values of the list are canonical. -/
def JSON.AllCanonical : List JSON → Prop
  | [] => True
  | x :: xs => JSON.Canonical x ∧ JSON.AllCanonical xs
/-- All member values of the list are canonical. -/
def JSON.MembersCanonical : List (String × JSON) → Prop
  | [] => True
  | (_, x) :: kvs => JSON.Canonical x ∧ JSON.MembersCanonical kvs
end

mutual
/-- The number of values, elements and members in a value: nesting that `parseValue` has to
follow to read its text. -/
def JSON.nodes : JSON → Nat
  | JSON.arr xs => 1 + JSON.nodesElems xs
  | JSON.obj kvs => 1 + JSON.nodesMembers kvs
  | _ => 1
/-- The nodes of the elements of an array. -/
def JSON.nodesElems : List JSON → Nat
  | [] => 0
  | x :: xs => 1 + JSON.nodes x + JSON.nodesElems xs
/-- The nodes of the members of an object. -/
def JSON.nodesMembers : List (String × JSON) → Nat
  | [] => 0
  | (_, x) :: kvs => 1 + JSON.nodes x + JSON.nodesMembers kvs
end

/-- The text after a number literal does not continue the literal. -/
def EndsNumber (rest : List Char) : Prop :=
  ∀ c r, rest = c :: r → isDigit c = false ∧ c ≠ '.' ∧ c ≠ 'e' ∧ c ≠ 'E'

/-- The text of the magnitude `n / 10 ^ k`, as `Decimal.render` writes it. -/
def renderUnsigned (n k : Nat) : List Char :=
  if k = 0 then natDigits n
  else if (natDigits n).length ≤ k then
    '0' :: '.' :: (List.replicate (k - (natDigits n).length) '0' ++ natDigits n)
  else (natDigits n).take ((natDigits n).length - k) ++
    '.' :: (natDigits n).drop ((natDigits n).length - k)

/-- A character that can begin the text of a value. -/
def StartChar (c : Char) : Prop :=
  c = 'n' ∨ c = 't' ∨ c = 'f' ∨ c = '"' ∨ c = '[' ∨ c = '{' ∨ c = '-' ∨ isDigit c = true

/-- The store of a browser that has never seen the shop: no entry, storage usable. -/
def emptyStore : Storage := ⟨none, false, false⟩

/-- A page with a cart list and a total element in a `span` next to the subtotal paragraph,
nothing rendered yet. -/
def blankPage : Page :=
  ⟨some [], some [],
    some ⟨"div", [Node.element "p" [Node.text "Subtotal (0 items):"]], "span", "$0.00", []⟩,
    false⟩

/-- The quantity `updateQuantity` computes from the quantity shown in the row. -/
def steppedQuantity (classList : List String) (shown : Int) : Int :=
  if classList.contains "increase" then shown + 1
  else if classList.contains "decrease" && decide (shown > 1) then shown - 1
  else shown

/-- An item used in the examples. -/
def apple : CartItem := ⟨"a", "Apple", Decimal.ofInt 10, "a.png", 1⟩

/-- A second item used in the examples. -/
def pear : CartItem := ⟨"b", "Pear", Decimal.ofInt 5, "b.png", 2⟩

/-- A usable store whose entry is the text `addToCart` writes for one apple. -/
def appleStore : Storage :=
  ⟨some "[\x7b\"id\":\"a\",\"name\":\"Apple\",\"price\":10,\"image\":\"a.png\",\"quantity\":1\x7d]",
    false, false⟩

/-- The total price in the words of the specification: the sum over the entries of price
times quantity. The theorems compare it with the running total of `renderItems`. -/
def cartTotal (cart : List CartItem) : ℚ :=
  (cart.map (fun item => item.price.toRat * (item.quantity : ℚ))).sum

/-- The item count in the words of the specification: the sum of the quantities. The
theorems compare it with the running count of `renderItems`. -/
def itemCount (cart : List CartItem) : Int :=
  (cart.map CartItem.quantity).sum

/-! # Theorems -/

/-! ## Digits -/

theorem digitChar_toNat (d : Nat) (h : d < 10) : (digitChar d).toNat = 48 + d := by
  interval_cases d <;> rfl

theorem isDigit_digitChar (d : Nat) (h : d < 10) : isDigit (digitChar d) = true := by
  interval_cases d <;> rfl

theorem digitVal_digitChar (d : Nat) (h : d < 10) : digitVal (digitChar d) = d := by
  interval_cases d <;> rfl

theorem natDigitsAux_acc (fuel n : Nat) (acc : List Char) :
    natDigitsAux fuel n acc = natDigitsAux fuel n [] ++ acc := by
  induction fuel generalizing n acc with
  | zero => simp [natDigitsAux]
  | succ f ih =>
    simp only [natDigitsAux]
    split
    · simp
    · rw [ih, ih (n / 10) [digitChar (n % 10)]]
      simp

theorem natDigitsAux_fuel (f g n : Nat) (hf : n < f) (hg : n < g) :
    natDigitsAux f n [] = natDigitsAux g n [] := by
  induction f generalizing g n with
  | zero => omega
  | succ f ih =>
    cases g with
    | zero => omega
    | succ g =>
      simp only [natDigitsAux]
      split
      · rfl
      · rw [natDigitsAux_acc f, natDigitsAux_acc g, ih g (n / 10) (by omega) (by omega)]

theorem natDigits_lt (n : Nat) (h : n < 10) : natDigits n = [digitChar n] := by
  simp [natDigits, natDigitsAux, h]

theorem natDigits_ge (n : Nat) (h : 10 ≤ n) :
    natDigits n = natDigits (n / 10) ++ [digitChar (n % 10)] := by
  have h1 : ¬ n < 10 := by omega
  have e : natDigitsAux (n + 1) n [] = natDigitsAux n (n / 10) [digitChar (n % 10)] := by
    simp [natDigitsAux, h1]
  unfold natDigits
  rw [e, natDigitsAux_acc, natDigitsAux_fuel n (n / 10 + 1) (n / 10) (by omega) (by omega)]

theorem natDigits_all (n : Nat) : ∀ c ∈ natDigits n, isDigit c = true := by
  induction n using Nat.strong_induction_on with
  | _ n ih =>
    by_cases h : n < 10
    · rw [natDigits_lt n h]
      intro c hc
      simp only [List.mem_singleton] at hc
      subst hc
      exact isDigit_digitChar n h
    · rw [natDigits_ge n (by omega)]
      intro c hc
      rcases List.mem_append.1 hc with hc | hc
      · exact ih (n / 10) (by omega) c hc
      · simp only [List.mem_singleton] at hc
        subst hc
        exact isDigit_digitChar _ (by omega)

theorem digitsToNat_append (xs : List Char) (c : Char) :
    digitsToNat (xs ++ [c]) = 10 * digitsToNat xs + digitVal c := by
  simp [digitsToNat, List.foldl_append]

theorem digitsToNat_natDigits (n : Nat) : digitsToNat (natDigits n) = n := by
  induction n using Nat.strong_induction_on with
  | _ n ih =>
    by_cases h : n < 10
    · rw [natDigits_lt n h]
      simp [digitsToNat, digitVal_digitChar n h]
    · rw [natDigits_ge n (by omega), digitsToNat_append, ih (n / 10) (by omega),
        digitVal_digitChar _ (by omega)]
      omega

theorem natDigits_head (n : Nat) :
    ∃ c cs, natDigits n = c :: cs ∧ isDigit c = true ∧ (c = '0' → n = 0 ∧ cs = []) := by
  induction n using Nat.strong_induction_on with
  | _ n ih =>
    by_cases h : n < 10
    · refine ⟨digitChar n, [], natDigits_lt n h, isDigit_digitChar n h, ?_⟩
      intro h0
      refine ⟨?_, rfl⟩
      have := digitChar_toNat n h
      rw [h0] at this
      have h48 : ('0' : Char).toNat = 48 := rfl
      omega
    · obtain ⟨c, cs, hcs, hd, h0⟩ := ih (n / 10) (by omega)
      refine ⟨c, cs ++ [digitChar (n % 10)], ?_, hd, ?_⟩
      · rw [natDigits_ge n (by omega), hcs]; rfl
      · intro hc
        have := (h0 hc).1
        omega

theorem natDigits_length_ge (n : Nat) (h : 10 ≤ n) : 2 ≤ (natDigits n).length := by
  rw [natDigits_ge n h]
  obtain ⟨c, cs, hcs, _, _⟩ := natDigits_head (n / 10)
  simp [hcs]


/-! ## Number literals -/

theorem takeDigits_append (ds rest : List Char) (hds : ∀ c ∈ ds, isDigit c = true)
    (hrest : ∀ c r, rest = c :: r → isDigit c = false) :
    takeDigits (ds ++ rest) = (ds, rest) := by
  induction ds with
  | nil =>
    cases rest with
    | nil => rfl
    | cons c r => simp [takeDigits, hrest c r rfl]
  | cons d ds ih =>
    have hd : isDigit d = true := hds d (List.mem_cons_self _ _)
    have := ih (fun c hc => hds c (List.mem_cons_of_mem _ hc))
    simp [takeDigits, hd, this]

theorem parseFraction_none (rest : List Char) (h : EndsNumber rest) :
    parseFraction rest = some ([], rest) := by
  cases rest with
  | nil => rfl
  | cons c r => simp [parseFraction, (h c r rfl).2.1]

theorem parseExponent_none (rest : List Char) (h : EndsNumber rest) :
    parseExponent rest = some (0, rest) := by
  cases rest with
  | nil => rfl
  | cons c r => simp [parseExponent, (h c r rfl).2.2.1, (h c r rfl).2.2.2]

theorem digitsToNat_zeros (j : Nat) (ds : List Char) :
    digitsToNat (List.replicate j '0' ++ ds) = digitsToNat ds := by
  induction j with
  | zero => rfl
  | succ j ih =>
    have : digitsToNat ('0' :: (List.replicate j '0' ++ ds))
        = digitsToNat (List.replicate j '0' ++ ds) := by
      simp [digitsToNat, digitVal]
    rw [List.replicate_succ, List.cons_append, this, ih]

theorem Decimal.ext_iff' (a b : Decimal) (h1 : a.mant = b.mant) (h2 : a.scale = b.scale) :
    a = b := by
  cases a; cases b; simp_all

theorem Decimal.normalize_of_norm (m : Int) (k : Nat) (h : k = 0 ∨ m % 10 ≠ 0) :
    Decimal.normalize m k = ⟨m, k, h⟩ := by
  cases k with
  | zero => rfl
  | succ k =>
    have hm : m % 10 ≠ 0 := by
      rcases h with h | h
      · omega
      · exact h
    simp [Decimal.normalize, hm]

theorem Decimal.ofParts_zero (d : Decimal) : Decimal.ofParts d.mant d.scale 0 = d := by
  unfold Decimal.ofParts
  by_cases hk : d.scale = 0
  · have : ((d.scale : Int) ≤ 0) := by omega
    rw [if_pos this]
    apply Decimal.ext_iff'
    · simp [hk, Decimal.normalize]
    · simp [hk, Decimal.normalize]
  · have : ¬ ((d.scale : Int) ≤ 0) := by omega
    rw [if_neg this]
    have e : ((d.scale : Int) - 0).toNat = d.scale := by simp
    rw [e, Decimal.normalize_of_norm d.mant d.scale d.norm]


theorem render_eq (d : Decimal) :
    d.render = (if d.mant < 0 then ['-'] else []) ++ renderUnsigned d.mant.natAbs d.scale := rfl

theorem ne_of_isDigit {c x : Char} (h : isDigit c = true) (hx : isDigit x = false) : c ≠ x := by
  rintro rfl
  simp [h] at hx

theorem endsNumber_noDigit {rest : List Char} (h : EndsNumber rest) :
    ∀ c r, rest = c :: r → isDigit c = false := fun c r e => (h c r e).1

theorem noDigit_dot (l : List Char) : ∀ c r, '.' :: l = c :: r → isDigit c = false := by
  intro c r e
  cases e
  rfl

theorem parseUnsigned_render (neg : Bool) (n k : Nat) (rest : List Char)
    (h : EndsNumber rest) :
    parseUnsigned neg (renderUnsigned n k ++ rest)
      = some (Decimal.ofParts (if neg then -(n : Int) else (n : Int)) k 0, rest) := by
  obtain ⟨c, cs, hcs, hcd, hc0⟩ := natDigits_head n
  have hall := natDigits_all n
  have hval := digitsToNat_natDigits n
  rw [hcs] at hall hval
  have hcsd : ∀ x ∈ cs, isDigit x = true := fun x hx => hall x (List.mem_cons_of_mem _ hx)
  unfold renderUnsigned
  by_cases hk : k = 0
  · subst hk
    rw [if_pos rfl, hcs]
    have ip : (if c = '0' then ([c], cs ++ rest)
        else (c :: (takeDigits (cs ++ rest)).1, (takeDigits (cs ++ rest)).2))
        = (c :: cs, rest) := by
      by_cases h0 : c = '0'
      · rw [if_pos h0, (hc0 h0).2]; rfl
      · rw [if_neg h0, takeDigits_append cs rest hcsd (endsNumber_noDigit h)]
    simp only [List.cons_append, parseUnsigned, hcd, if_true, ip, parseFraction_none rest h,
      parseExponent_none rest h, List.append_nil, hval, List.length_nil]
  · rw [if_neg hk]
    by_cases hl : (natDigits n).length ≤ k
    · rw [if_pos hl]
      have hz : ∀ x ∈ List.replicate (k - (natDigits n).length) '0' ++ natDigits n,
          isDigit x = true := by
        intro x hx
        rcases List.mem_append.1 hx with hx | hx
        · rw [(List.mem_replicate.1 hx).2]; rfl
        · exact natDigits_all n x hx
      have hne : List.replicate (k - (natDigits n).length) '0' ++ natDigits n ≠ [] := by
        rw [hcs]; simp
      have hlen : (List.replicate (k - (natDigits n).length) '0' ++ natDigits n).length = k := by
        simp; omega
      have hv : digitsToNat ('0' :: (List.replicate (k - (natDigits n).length) '0'
          ++ natDigits n)) = n := by
        have := digitsToNat_zeros (k - (natDigits n).length + 1) (natDigits n)
        rw [List.replicate_succ, List.cons_append] at this
        rw [this, digitsToNat_natDigits]
      have hd0 : isDigit '0' = true := rfl
      have htd : takeDigits (List.replicate (k - (natDigits n).length) '0'
          ++ (natDigits n ++ rest))
          = (List.replicate (k - (natDigits n).length) '0' ++ natDigits n, rest) := by
        rw [← List.append_assoc]
        exact takeDigits_append _ rest hz (endsNumber_noDigit h)
      simp only [List.cons_append, parseUnsigned, hd0, if_true, parseFraction,
        List.append_assoc, htd, hne, if_false,
        parseExponent_none rest h, hlen, List.nil_append, hv]
    · rw [if_neg hl]
      have hlen : k < (natDigits n).length := by omega
      rw [hcs] at hlen ⊢
      have hpos : (c :: cs).length - k = (cs.length - k) + 1 := by
        simp only [List.length_cons] at hlen ⊢
        omega
      rw [hpos, List.take_succ_cons, List.drop_succ_cons]
      have hc0' : c ≠ '0' := by
        intro e
        have := (hc0 e).2
        subst this
        simp at hlen
        omega
      have htk : ∀ x ∈ cs.take (cs.length - k), isDigit x = true :=
        fun x hx => hcsd x (List.mem_of_mem_take hx)
      have hdr : ∀ x ∈ cs.drop (cs.length - k), isDigit x = true :=
        fun x hx => hcsd x (List.mem_of_mem_drop hx)
      have hdne : cs.drop (cs.length - k) ≠ [] := by
        intro e
        have := congrArg List.length e
        simp only [List.length_drop, List.length_nil, List.length_cons] at this hlen
        omega
      have hdlen : (cs.drop (cs.length - k)).length = k := by
        simp only [List.length_drop, List.length_cons] at hlen ⊢
        omega
      have hv : digitsToNat (c :: (cs.take (cs.length - k) ++ cs.drop (cs.length - k))) = n := by
        rw [List.take_append_drop]; exact hval
      simp only [List.cons_append, parseUnsigned, hcd, if_true, hc0', if_false,
        List.append_assoc,
        takeDigits_append (cs.take (cs.length - k)) _ htk (noDigit_dot _),
        parseFraction, takeDigits_append _ rest hdr (endsNumber_noDigit h), hdne,
        parseExponent_none rest h, hdlen, hv]

theorem renderUnsigned_head (n k : Nat) :
    ∃ c r, renderUnsigned n k = c :: r ∧ isDigit c = true := by
  obtain ⟨c, cs, hcs, hcd, hc0⟩ := natDigits_head n
  unfold renderUnsigned
  by_cases hk : k = 0
  · rw [if_pos hk, hcs]; exact ⟨c, cs, rfl, hcd⟩
  · rw [if_neg hk]
    by_cases hl : (natDigits n).length ≤ k
    · rw [if_pos hl]; exact ⟨'0', _, rfl, rfl⟩
    · rw [if_neg hl, hcs]
      have hpos : (c :: cs).length - k = ((c :: cs).length - k - 1) + 1 := by
        rw [hcs] at hl
        omega
      rw [hpos, List.take_succ_cons]
      exact ⟨c, _, rfl, hcd⟩

theorem parseNumber_render (d : Decimal) (rest : List Char) (h : EndsNumber rest) :
    parseNumber (d.render ++ rest) = some (d, rest) := by
  rw [render_eq]
  by_cases hneg : d.mant < 0
  · rw [if_pos hneg]
    have e : (if true = true then -((d.mant.natAbs : Nat) : Int) else (d.mant.natAbs : Int))
        = d.mant := by
      simp only [if_true]
      omega
    simp only [List.singleton_append, List.cons_append, List.nil_append, parseNumber, if_true]
    rw [parseUnsigned_render true _ _ rest h, e, Decimal.ofParts_zero]
  · rw [if_neg hneg]
    obtain ⟨c, r, hcr, hcd⟩ := renderUnsigned_head d.mant.natAbs d.scale
    have hm : c ≠ '-' := ne_of_isDigit hcd rfl
    have e : (if false = true then -((d.mant.natAbs : Nat) : Int) else (d.mant.natAbs : Int))
        = d.mant := by
      simp only [Bool.false_eq_true, if_false]
      omega
    have := parseUnsigned_render false d.mant.natAbs d.scale rest h
    rw [hcr] at this
    simp only [List.nil_append, hcr, List.cons_append, parseNumber, hm, if_false]
    rw [← List.cons_append, this, e, Decimal.ofParts_zero]


/-! ## String literals -/

theorem hex4_control (n : Nat) (h : n < 32) :
    hex4 '0' '0' (hexChar (n / 16)) (hexChar (n % 16)) = some n := by
  interval_cases n <;> rfl

theorem char_not_surrogate (c : Char) :
    isHighSurrogate c.toNat = false ∧ isLowSurrogate c.toNat = false := by
  have h := c.valid
  have e : c.toNat = c.val.toNat := rfl
  simp only [UInt32.isValidChar, Nat.isValidChar] at h
  simp only [isHighSurrogate, isLowSurrogate, e, Bool.and_eq_false_imp, decide_eq_true_eq,
    decide_eq_false_iff_not]
  constructor <;> intro _ <;> omega

theorem decodeUnits_toNat (s : List Char) : decodeUnits (s.map Char.toNat) = s := by
  induction s with
  | nil => rfl
  | cons c s ih =>
    cases s with
    | nil =>
      simp [decodeUnits, (char_not_surrogate c).1, (char_not_surrogate c).2, Char.ofNat_toNat]
    | cons d s =>
      simp only [List.map_cons] at ih ⊢
      simp [decodeUnits, (char_not_surrogate c).1, (char_not_surrogate c).2, Char.ofNat_toNat, ih]

theorem parseStringBody_cons (c : Char) (cs : List Char) :
    parseStringBody (c :: cs) =
      if c = '"' then some ([], cs)
      else if c = '\\' then
        match cs with
        | [] => none
        | e :: r =>
          if e = 'u' then
            match r with
            | h1 :: h2 :: h3 :: h4 :: r1 =>
              match hex4 h1 h2 h3 h4 with
              | none => none
              | some n => (parseStringBody r1).map (fun p => (n :: p.1, p.2))
            | _ => none
          else
            match unescape e with
            | none => none
            | some ch => (parseStringBody r).map (fun p => (ch.toNat :: p.1, p.2))
      else if c.toNat < 32 then none
      else (parseStringBody cs).map (fun p => (c.toNat :: p.1, p.2)) := by
  rw [parseStringBody.eq_def]

theorem parseStringBody_escape (s rest : List Char) :
    parseStringBody (s.flatMap escapeChar ++ '"' :: rest) = some (s.map Char.toNat, rest) := by
  induction s with
  | nil => simp [parseStringBody_cons]
  | cons c s ih =>
    rw [List.flatMap_cons, List.append_assoc]
    by_cases h1 : c = '"'
    · subst h1
      simp [escapeChar, parseStringBody_cons, unescape, ih]
    by_cases h2 : c = '\\'
    · subst h2
      simp [escapeChar, parseStringBody_cons, unescape, ih]
    by_cases h3 : c = '\x08'
    · subst h3
      simp [escapeChar, parseStringBody_cons, unescape, ih]
    by_cases h4 : c = '\x0c'
    · subst h4
      simp [escapeChar, parseStringBody_cons, unescape, ih]
    by_cases h5 : c = '\n'
    · subst h5
      simp [escapeChar, parseStringBody_cons, unescape, ih]
    by_cases h6 : c = '\r'
    · subst h6
      simp [escapeChar, parseStringBody_cons, unescape, ih]
    by_cases h7 : c = '\t'
    · subst h7
      simp [escapeChar, parseStringBody_cons, unescape, ih]
    by_cases h8 : c.toNat < 32
    · have e : escapeChar c
          = ['\\', 'u', '0', '0', hexChar (c.toNat / 16), hexChar (c.toNat % 16)] := by
        simp [escapeChar, h1, h2, h3, h4, h5, h6, h7, h8]
      rw [e]
      simp [parseStringBody_cons, hex4_control c.toNat h8, ih]
    · have e : escapeChar c = [c] := by
        simp [escapeChar, h1, h2, h3, h4, h5, h6, h7, h8]
      rw [e]
      simp [parseStringBody_cons, h1, h2, h8, ih]

theorem parseString_quote (s : String) (rest : List Char) :
    parseString (s.data.flatMap escapeChar ++ '"' :: rest) = some (s, rest) := by
  simp [parseString, parseStringBody_escape, decodeUnits_toNat]


/-! ## Values: `JSON.parse` after `JSON.stringify` -/

theorem defineProperty_new (o : List (String × JSON)) (k : String) (v : JSON)
    (hk : ∀ p ∈ o, p.1 ≠ k) (hi : arrayIndex k = none) :
    defineProperty o k v = o ++ [(k, v)] := by
  unfold defineProperty
  have : o.any (fun p => decide (p.1 = k)) = false := by
    simp only [List.any_eq_false, decide_eq_true_eq]
    exact hk
  simp [this, hi]

theorem propertyOrder_aux (kvs o : List (String × JSON))
    (hnd : ((o ++ kvs).map Prod.fst).Nodup) (hi : ∀ p ∈ kvs, arrayIndex p.1 = none) :
    kvs.foldl (fun o p => defineProperty o p.1 p.2) o = o ++ kvs := by
  induction kvs generalizing o with
  | nil => simp
  | cons p kvs ih =>
    have hk : ∀ q ∈ o, q.1 ≠ p.1 := by
      intro q hq e
      rw [List.map_append, List.map_cons] at hnd
      have := (List.nodup_append.1 hnd).2.2
      exact this (List.mem_map_of_mem Prod.fst hq) (by rw [e]; exact List.mem_cons_self _ _)
    rw [List.foldl_cons, defineProperty_new o p.1 p.2 hk (hi p (List.mem_cons_self _ _))]
    rw [ih (o ++ [(p.1, p.2)]) (by simpa using hnd)
      (fun q hq => hi q (List.mem_cons_of_mem _ hq))]
    simp

theorem propertyOrder_canonical (kvs : List (String × JSON))
    (hnd : (kvs.map Prod.fst).Nodup) (hi : ∀ p ∈ kvs, arrayIndex p.1 = none) :
    propertyOrder kvs = kvs := by
  unfold propertyOrder
  rw [propertyOrder_aux kvs [] (by simpa using hnd) hi]
  rfl

theorem StartChar.not_ws {c : Char} (h : StartChar c) : isWs c = false := by
  rcases h with h | h | h | h | h | h | h | h
  all_goals first | (subst h; rfl) | skip
  unfold isDigit at h
  unfold isWs
  simp only [Bool.and_eq_true, decide_eq_true_eq] at h
  have e1 : c ≠ ' ' := by rintro rfl; simp at h
  have e2 : c ≠ '\t' := by rintro rfl; simp at h
  have e3 : c ≠ '\n' := by rintro rfl; simp at h
  have e4 : c ≠ '\r' := by rintro rfl; simp at h
  simp [e1, e2, e3, e4]

theorem StartChar.ne_close {c : Char} (h : StartChar c) : c ≠ ']' ∧ c ≠ '}' := by
  rcases h with h | h | h | h | h | h | h | h
  all_goals first | (subst h; exact ⟨by decide, by decide⟩) | skip
  exact ⟨ne_of_isDigit h rfl, ne_of_isDigit h rfl⟩

theorem skipWs_cons {c : Char} (h : isWs c = false) (r : List Char) :
    skipWs (c :: r) = c :: r := by
  simp [skipWs, h]

theorem render_head (d : Decimal) :
    ∃ c r, d.render = c :: r ∧ (c = '-' ∨ isDigit c = true) := by
  rw [render_eq]
  by_cases h : d.mant < 0
  · rw [if_pos h]; exact ⟨'-', _, rfl, Or.inl rfl⟩
  · rw [if_neg h]
    obtain ⟨c, r, hcr, hc⟩ := renderUnsigned_head d.mant.natAbs d.scale
    exact ⟨c, r, by rw [hcr]; rfl, Or.inr hc⟩

theorem stringify_head (v : JSON) : ∃ c r, stringify v = c :: r ∧ StartChar c := by
  cases v with
  | null => exact ⟨'n', _, by rw [stringify], Or.inl rfl⟩
  | bool b =>
    cases b
    · exact ⟨'f', _, by rw [stringify], Or.inr (Or.inr (Or.inl rfl))⟩
    · exact ⟨'t', _, by rw [stringify], Or.inr (Or.inl rfl)⟩
  | num d =>
    obtain ⟨c, r, hcr, hc⟩ := render_head d
    refine ⟨c, r, by rw [stringify, hcr], ?_⟩
    rcases hc with hc | hc
    · exact Or.inr (Or.inr (Or.inr (Or.inr (Or.inr (Or.inr (Or.inl hc))))))
    · exact Or.inr (Or.inr (Or.inr (Or.inr (Or.inr (Or.inr (Or.inr hc))))))
  | str s => exact ⟨'"', _, by rw [stringify, quote], Or.inr (Or.inr (Or.inr (Or.inl rfl)))⟩
  | arr xs =>
    exact ⟨'[', _, by rw [stringify], Or.inr (Or.inr (Or.inr (Or.inr (Or.inl rfl))))⟩
  | obj kvs =>
    exact ⟨'{', _, by rw [stringify],
      Or.inr (Or.inr (Or.inr (Or.inr (Or.inr (Or.inl rfl)))))⟩


theorem endsNumber_nil : EndsNumber [] := by
  intro c r e
  cases e

theorem endsNumber_comma (l : List Char) : EndsNumber (',' :: l) := by
  intro c r e
  cases e
  exact ⟨rfl, by decide, by decide, by decide⟩

theorem endsNumber_bracket (l : List Char) : EndsNumber (']' :: l) := by
  intro c r e
  cases e
  exact ⟨rfl, by decide, by decide, by decide⟩

theorem endsNumber_brace (l : List Char) : EndsNumber ('}' :: l) := by
  intro c r e
  cases e
  exact ⟨rfl, by decide, by decide, by decide⟩

theorem parseValue_succ (fuel : Nat) (c : Char) (r : List Char) (h : isWs c = false) :
    parseValue (fuel + 1) (c :: r) =
      if c = '"' then (parseString r).map (fun p => (JSON.str p.1, p.2))
      else if c = '[' then
        match skipWs r with
        | [] => none
        | d :: r1 =>
          if d = ']' then some (JSON.arr [], r1)
          else (parseElements fuel (d :: r1)).map (fun p => (JSON.arr p.1, p.2))
      else if c = '{' then
        match skipWs r with
        | [] => none
        | d :: r1 =>
          if d = '}' then some (JSON.obj [], r1)
          else (parseMembers fuel (d :: r1)).map (fun p => (JSON.obj (propertyOrder p.1), p.2))
      else if c = '-' ∨ isDigit c then
        (parseNumber (c :: r)).map (fun p => (JSON.num p.1, p.2))
      else parseLiteral (c :: r) := by
  rw [parseValue, skipWs_cons h]

theorem stringifyElems_head (x : JSON) (xs : List JSON) :
    ∃ c r, stringifyElems (x :: xs) = c :: r ∧ StartChar c := by
  obtain ⟨c, r, hcr, hc⟩ := stringify_head x
  cases xs with
  | nil => exact ⟨c, r, by rw [stringifyElems, hcr], hc⟩
  | cons y ys => exact ⟨c, _, by rw [stringifyElems, hcr]; rfl, hc⟩

theorem stringifyMembers_head (p : String × JSON) (kvs : List (String × JSON)) :
    ∃ r, stringifyMembers (p :: kvs) = '"' :: r := by
  obtain ⟨k, x⟩ := p
  cases kvs with
  | nil => exact ⟨_, by rw [stringifyMembers, quote]; rfl⟩
  | cons y ys => exact ⟨_, by rw [stringifyMembers, quote]; rfl⟩

mutual
theorem parseValue_stringify : ∀ (v : JSON), v.Canonical → ∀ (fuel : Nat) (rest : List Char),
    v.nodes ≤ fuel → EndsNumber rest → parseValue fuel (stringify v ++ rest) = some (v, rest)
  | JSON.null, _, fuel, rest, hf, _ => by
    cases fuel with
    | zero => simp [JSON.nodes] at hf
    | succ f =>
      rw [stringify, List.cons_append, parseValue_succ f 'n' _ (by decide)]
      simp [parseLiteral, isDigit]
  | JSON.bool true, _, fuel, rest, hf, _ => by
    cases fuel with
    | zero => simp [JSON.nodes] at hf
    | succ f =>
      rw [stringify, List.cons_append, parseValue_succ f 't' _ (by decide)]
      simp [parseLiteral, isDigit]
  | JSON.bool false, _, fuel, rest, hf, _ => by
    cases fuel with
    | zero => simp [JSON.nodes] at hf
    | succ f =>
      rw [stringify, List.cons_append, parseValue_succ f 'f' _ (by decide)]
      simp [parseLiteral, isDigit]
  | JSON.num d, _, fuel, rest, hf, hr => by
    cases fuel with
    | zero => simp [JSON.nodes] at hf
    | succ f =>
      obtain ⟨c, r, hcr, hc⟩ := render_head d
      have hs : StartChar c := by
        rcases hc with hc | hc
        · exact Or.inr (Or.inr (Or.inr (Or.inr (Or.inr (Or.inr (Or.inl hc))))))
        · exact Or.inr (Or.inr (Or.inr (Or.inr (Or.inr (Or.inr (Or.inr hc))))))
      have h1 : c ≠ '"' := by
        rcases hc with hc | hc
        · rw [hc]; decide
        · exact ne_of_isDigit hc rfl
      have h2 : c ≠ '[' := by
        rcases hc with hc | hc
        · rw [hc]; decide
        · exact ne_of_isDigit hc rfl
      have h3 : c ≠ '{' := by
        rcases hc with hc | hc
        · rw [hc]; decide
        · exact ne_of_isDigit hc rfl
      have h4 : c = '-' ∨ isDigit c = true := hc
      have := parseNumber_render d rest hr
      rw [hcr] at this
      rw [stringify, hcr, List.cons_append, parseValue_succ f _ _ hs.not_ws]
      rw [if_neg h1, if_neg h2, if_neg h3, if_pos h4, ← List.cons_append, this]
      rfl
  | JSON.str s, _, fuel, rest, hf, _ => by
    cases fuel with
    | zero => simp [JSON.nodes] at hf
    | succ f =>
      rw [stringify, quote, List.cons_append, parseValue_succ f '"' _ (by decide)]
      rw [if_pos rfl, List.append_assoc, List.singleton_append, parseString_quote]
      rfl
  | JSON.arr [], _, fuel, rest, hf, _ => by
    cases fuel with
    | zero => simp [JSON.nodes] at hf
    | succ f =>
      rw [stringify, stringifyElems, List.cons_append, parseValue_succ f '[' _ (by decide)]
      simp [skipWs, isWs]
  | JSON.arr (x :: xs), hc, fuel, rest, hf, _ => by
    cases fuel with
    | zero => simp [JSON.nodes] at hf
    | succ f =>
      have hn : JSON.nodesElems (x :: xs) ≤ f := by
        rw [JSON.nodes] at hf
        omega
      have hca : JSON.AllCanonical (x :: xs) := by
        rw [JSON.Canonical] at hc
        exact hc
      have ih := parseElements_stringify (x :: xs) (by simp) hca f rest hn
      obtain ⟨c, r, hcr, hs⟩ := stringifyElems_head x xs
      rw [hcr, List.cons_append] at ih
      rw [stringify, List.cons_append, parseValue_succ f '[' _ (by decide), List.append_assoc,
        List.singleton_append, hcr, List.cons_append, skipWs_cons hs.not_ws]
      simp only [Char.reduceEq, if_false, if_true, hs.ne_close.1, ih]  
      rfl
  | JSON.obj [], _, fuel, rest, hf, _ => by
    cases fuel with
    | zero => simp [JSON.nodes] at hf
    | succ f =>
      rw [stringify, stringifyMembers, List.cons_append, parseValue_succ f '{' _ (by decide)]
      simp [skipWs, isWs]
  | JSON.obj (p :: kvs), hc, fuel, rest, hf, _ => by
    cases fuel with
    | zero => simp [JSON.nodes] at hf
    | succ f =>
      have hn : JSON.nodesMembers (p :: kvs) ≤ f := by
        rw [JSON.nodes] at hf
        omega
      rw [JSON.Canonical] at hc
      have ih := parseMembers_stringify (p :: kvs) (by simp) hc.1 f rest hn
      obtain ⟨r, hcr⟩ := stringifyMembers_head p kvs
      rw [hcr, List.cons_append] at ih
      rw [stringify, List.cons_append, parseValue_succ f '{' _ (by decide), List.append_assoc,
        List.singleton_append, hcr, List.cons_append,
        skipWs_cons (show isWs '"' = false from rfl)]
      simp only [Char.reduceEq, if_false, if_true, ih, Option.map_some',
        propertyOrder_canonical (p :: kvs) hc.2.1 hc.2.2]
theorem parseElements_stringify : ∀ (xs : List JSON), xs ≠ [] → JSON.AllCanonical xs →
    ∀ (fuel : Nat) (rest : List Char), JSON.nodesElems xs ≤ fuel →
    parseElements fuel (stringifyElems xs ++ ']' :: rest) = some (xs, rest)
  | [], h, _, _, _, _ => absurd rfl h
  | [x], _, hc, fuel, rest, hf => by
    cases fuel with
    | zero => simp [JSON.nodesElems] at hf
    | succ f =>
      rw [JSON.AllCanonical] at hc
      have hn : x.nodes ≤ f := by
        simp only [JSON.nodesElems] at hf
        omega
      have ih := parseValue_stringify x hc.1 f (']' :: rest) hn (endsNumber_bracket rest)
      rw [stringifyElems, parseElements, ih]
      simp [skipWs, isWs]
  | x :: y :: r, _, hc, fuel, rest, hf => by
    cases fuel with
    | zero => simp [JSON.nodesElems] at hf
    | succ f =>
      rw [JSON.AllCanonical] at hc
      have hn : x.nodes ≤ f := by
        rw [JSON.nodesElems] at hf
        omega
      have hn2 : JSON.nodesElems (y :: r) ≤ f := by
        rw [JSON.nodesElems] at hf
        omega
      have ih := parseValue_stringify x hc.1 f
        (',' :: (stringifyElems (y :: r) ++ ']' :: rest)) hn (endsNumber_comma _)
      have ih2 := parseElements_stringify (y :: r) (by simp) hc.2 f rest hn2
      rw [stringifyElems, parseElements, List.append_assoc, List.cons_append, ih]
      simp [skipWs, isWs, ih2]
theorem parseMembers_stringify : ∀ (kvs : List (String × JSON)), kvs ≠ [] →
    JSON.MembersCanonical kvs →
    ∀ (fuel : Nat) (rest : List Char), JSON.nodesMembers kvs ≤ fuel →
    parseMembers fuel (stringifyMembers kvs ++ '}' :: rest) = some (kvs, rest)
  | [], h, _, _, _, _ => absurd rfl h
  | [(k, x)], _, hc, fuel, rest, hf => by
    cases fuel with
    | zero => simp [JSON.nodesMembers] at hf
    | succ f =>
      rw [JSON.MembersCanonical] at hc
      have hn : x.nodes ≤ f := by
        simp only [JSON.nodesMembers] at hf
        omega
      have ih := parseValue_stringify x hc.1 f ('}' :: rest) hn (endsNumber_brace rest)
      rw [stringifyMembers, quote, parseMembers]
      simp only [List.cons_append, List.append_assoc, List.singleton_append, List.nil_append,
        skipWs_cons (show isWs '"' = false from rfl), if_true, parseString_quote,
        skipWs_cons (show isWs ':' = false from rfl), ih,
        skipWs_cons (show isWs '}' = false from rfl), Char.reduceEq, if_false]
  | (k, x) :: y :: r, _, hc, fuel, rest, hf => by
    cases fuel with
    | zero => simp [JSON.nodesMembers] at hf
    | succ f =>
      rw [JSON.MembersCanonical] at hc
      have hn : x.nodes ≤ f := by
        rw [JSON.nodesMembers] at hf
        omega
      have hn2 : JSON.nodesMembers (y :: r) ≤ f := by
        rw [JSON.nodesMembers] at hf
        omega
      have ih := parseValue_stringify x hc.1 f
        (',' :: (stringifyMembers (y :: r) ++ '}' :: rest)) hn (endsNumber_comma _)
      have ih2 := parseMembers_stringify (y :: r) (by simp) hc.2 f rest hn2
      rw [stringifyMembers, quote, parseMembers]
      simp only [List.cons_append, List.append_assoc, List.singleton_append, List.nil_append,
        skipWs_cons (show isWs '"' = false from rfl), if_true, parseString_quote,
        skipWs_cons (show isWs ':' = false from rfl), ih,
        skipWs_cons (show isWs ',' = false from rfl), ih2, Option.map_some']
end


mutual
theorem nodes_le_length : ∀ (v : JSON), v.nodes + 1 ≤ 2 * (stringify v).length
  | JSON.null => by simp [JSON.nodes, stringify]
  | JSON.bool true => by simp [JSON.nodes, stringify]
  | JSON.bool false => by simp [JSON.nodes, stringify]
  | JSON.num d => by
    obtain ⟨c, r, hcr, _⟩ := render_head d
    simp only [JSON.nodes, stringify, hcr, List.length_cons]
    omega
  | JSON.str s => by
    simp only [JSON.nodes, stringify, quote, List.length_cons, List.length_append]
    omega
  | JSON.arr xs => by
    have := nodesElems_le_length xs
    simp only [JSON.nodes, stringify, List.length_cons, List.length_append, List.length_nil]
    omega
  | JSON.obj kvs => by
    have := nodesMembers_le_length kvs
    simp only [JSON.nodes, stringify, List.length_cons, List.length_append, List.length_nil]
    omega
theorem nodesElems_le_length : ∀ (xs : List JSON),
    JSON.nodesElems xs ≤ 2 * (stringifyElems xs).length
  | [] => by simp [JSON.nodesElems]
  | [x] => by
    have := nodes_le_length x
    simp only [JSON.nodesElems, stringifyElems]
    omega
  | x :: y :: r => by
    have := nodes_le_length x
    have := nodesElems_le_length (y :: r)
    simp only [stringifyElems, List.length_cons, List.length_append]
    rw [JSON.nodesElems]
    omega
theorem nodesMembers_le_length : ∀ (kvs : List (String × JSON)),
    JSON.nodesMembers kvs ≤ 2 * (stringifyMembers kvs).length
  | [] => by simp [JSON.nodesMembers]
  | [(k, x)] => by
    have := nodes_le_length x
    simp only [JSON.nodesMembers, stringifyMembers, List.length_cons, List.length_append]
    omega
  | (k, x) :: y :: r => by
    have := nodes_le_length x
    have := nodesMembers_le_length (y :: r)
    simp only [stringifyMembers, List.length_cons, List.length_append]
    rw [JSON.nodesMembers]
    omega
end

/-- Parsing the text `JSON.stringify` writes for a canonical value gives the value back. -/
theorem parse_stringify (v : JSON) (hv : v.Canonical) :
    parse (String.mk (stringify v)) = some v := by
  have hn := nodes_le_length v
  have := parseValue_stringify v hv (2 * (stringify v).length + 2) [] (by omega) endsNumber_nil
  rw [List.append_nil] at this
  simp [parse, this, skipWs]

theorem stringify_ne_empty (v : JSON) : String.mk (stringify v) ≠ "" := by
  obtain ⟨c, r, hcr, _⟩ := stringify_head v
  intro h
  have := congrArg String.data h
  rw [hcr] at this
  cases this

theorem getCart_saveCart (st : Storage) (v : JSON) (hd : st.denied = false)
    (hf : st.full = false) (hv : v.Canonical) : getCart (saveCart st v) = v := by
  simp [getCart, saveCart, hd, hf, stringify_ne_empty, parse_stringify v hv]

/-! ## Carts in the store -/

theorem toJSON_canonical (item : CartItem) : item.toJSON.Canonical := by
  simp only [CartItem.toJSON, JSON.Canonical, JSON.MembersCanonical, and_true, true_and]
  refine ⟨by simp only [List.map_cons, List.map_nil]; decide, ?_⟩
  intro p hp
  simp only [List.mem_cons, List.mem_singleton, List.not_mem_nil, or_false] at hp
  rcases hp with h | h | h | h | h <;> subst h <;> rfl

theorem cartToJSON_canonical (cart : List CartItem) : (cartToJSON cart).Canonical := by
  unfold cartToJSON
  rw [JSON.Canonical]
  induction cart with
  | nil => simp [JSON.AllCanonical]
  | cons item cart ih =>
    rw [List.map_cons, JSON.AllCanonical]
    exact ⟨toJSON_canonical item, ih⟩

theorem ofJSON_toJSON (item : CartItem) : CartItem.ofJSON item.toJSON = some item := by
  simp [CartItem.ofJSON, CartItem.toJSON, Decimal.ofInt]

theorem cartOfJSON_cartToJSON (cart : List CartItem) :
    cartOfJSON (cartToJSON cart) = some cart := by
  unfold cartToJSON cartOfJSON
  induction cart with
  | nil => rfl
  | cons item cart ih =>
    simp only [List.map_cons, itemsOfJSON, ofJSON_toJSON]
    simp only [] at ih
    rw [ih]

/-- Reading back a cart that was saved to a store that accepts the write. -/
theorem loadCart_saveCart (st : Storage) (cart : List CartItem) (hd : st.denied = false)
    (hf : st.full = false) : loadCart (saveCart st (cartToJSON cart)) = some cart := by
  unfold loadCart
  rw [getCart_saveCart st _ hd hf (cartToJSON_canonical cart), cartOfJSON_cartToJSON]

theorem saveCart_denied (st : Storage) (v : JSON) : (saveCart st v).denied = st.denied := by
  unfold saveCart
  split <;> rfl

theorem saveCart_full (st : Storage) (v : JSON) : (saveCart st v).full = st.full := by
  unfold saveCart
  split <;> rfl


/-! ## `parseInt` on rendered quantities -/

theorem isDigit_not_strWs {c : Char} (h : isDigit c = true) : isStrWs c = false := by
  unfold isDigit at h
  simp only [Bool.and_eq_true, decide_eq_true_eq] at h
  unfold isStrWs
  have e1 : c ≠ ' ' := by rintro rfl; simp at h
  have e2 : c ≠ '\t' := by rintro rfl; simp at h
  have e3 : c ≠ '\n' := by rintro rfl; simp at h
  have e4 : c ≠ '\r' := by rintro rfl; simp at h
  have e5 : c ≠ '\x0b' := by rintro rfl; simp at h
  have e6 : c ≠ '\x0c' := by rintro rfl; simp at h
  simp only [e1, e2, e3, e4, e5, e6, decide_False, Bool.false_or, Bool.or_eq_false_iff,
    decide_eq_false_iff_not, Bool.and_eq_false_imp, decide_eq_true_eq]
  omega

theorem parseIntDigits_natDigits (n : Nat) : parseIntDigits (natDigits n) = some n := by
  obtain ⟨c, cs, hcs, hcd, hc0⟩ := natDigits_head n
  have hall := natDigits_all n
  have htd : takeDigits (natDigits n) = (natDigits n, []) := by
    have := takeDigits_append (natDigits n) [] hall (by intro c r e; cases e)
    rwa [List.append_nil] at this
  have hval := digitsToNat_natDigits n
  rw [hcs] at htd hval ⊢
  cases cs with
  | nil => simp [parseIntDigits, htd, hval]
  | cons b r =>
    have h0 : c ≠ '0' := by
      intro e
      have := (hc0 e).2
      cases this
    simp [parseIntDigits, h0, htd, hval]

theorem parseInt_intToText (q : Int) : parseInt (String.mk (intToText q)) = some q := by
  unfold parseInt intToText
  by_cases hq : q < 0
  · have e : -((q.natAbs : Nat) : Int) = q := by omega
    rw [if_pos hq, List.singleton_append]
    simp only [skipStrWs, isStrWs, Char.reduceEq, decide_False, Bool.false_or, Char.reduceToNat,
      Nat.reduceEqDiff, Nat.reduceLeDiff, decide_True, Bool.and_false, Bool.false_eq_true,
      if_false, if_true, parseIntDigits_natDigits, Option.map_some', Int.ofNat_eq_coe, e, Bool.and_true,
      Bool.or_self]
  · obtain ⟨c, cs, hcs, hcd, _⟩ := natDigits_head q.natAbs
    have h := parseIntDigits_natDigits q.natAbs
    rw [hcs] at h
    have hm : c ≠ '-' := ne_of_isDigit hcd rfl
    have hp : c ≠ '+' := ne_of_isDigit hcd rfl
    have e : ((q.natAbs : Nat) : Int) = q := by omega
    rw [if_neg hq, List.nil_append, hcs]
    simp only [skipStrWs, isDigit_not_strWs hcd, Bool.false_eq_true, if_false, hm, hp, h,
      Option.map_some', Int.ofNat_eq_coe, e]

/-! ## Lists of cart items -/

theorem find?_none_of_forall (cart : List CartItem) (X : String)
    (h : ∀ item ∈ cart, item.id ≠ X) :
    cart.find? (fun item => decide (item.id = X)) = none := by
  rw [List.find?_eq_none]
  intro item hi
  simpa using h item hi

theorem modifyFirst_absent (f : CartItem → CartItem) (cart : List CartItem) (X : String)
    (h : ∀ x ∈ cart, x.id ≠ X) :
    modifyFirst (fun item => decide (item.id = X)) f cart = cart := by
  induction cart with
  | nil => rfl
  | cons x cart ih =>
    have hx : x.id ≠ X := h x (List.mem_cons_self _ _)
    simp only [modifyFirst, hx, decide_False, Bool.false_eq_true, if_false]
    rw [ih (fun y hy => h y (List.mem_cons_of_mem _ hy))]

theorem addItem_new (cart : List CartItem) (X name : String) (price : Decimal)
    (image : String) (h : ∀ item ∈ cart, item.id ≠ X) :
    addItem cart X name price image = cart ++ [⟨X, name, price, image, 1⟩] := by
  unfold addItem
  rw [find?_none_of_forall cart X h]

theorem loadCart_saveCart_cases (st : Storage) (cart : List CartItem) :
    loadCart (saveCart st (cartToJSON cart))
      = if st.denied = false ∧ st.full = false then some cart else loadCart st := by
  by_cases h : st.denied = false ∧ st.full = false
  · rw [if_pos h, loadCart_saveCart st cart h.1 h.2]
  · rw [if_neg h]
    have : (st.denied || st.full) = true := by
      cases hd : st.denied <;> cases hf : st.full <;> simp_all
    simp [saveCart, this]

theorem addToCart_of_load (st : Storage) (cart : List CartItem) (X name : String)
    (price : Decimal) (image : String) (hc : loadCart st = some cart) :
    ∃ a, addToCart st X name price image
      = some (saveCart st (cartToJSON (addItem cart X name price image)), a) := by
  simp [addToCart, hc]

theorem displayCart_isSome (st : Storage) (page : Page) (cart : List CartItem)
    (hc : loadCart st = some cart) : ∃ pg, displayCart st page = some pg := by
  unfold displayCart
  rw [hc]
  simp only []
  split
  · exact ⟨_, rfl⟩
  · split <;> exact ⟨_, rfl⟩


/-! ## Adding and removing -/

theorem loadCart_emptyStore : loadCart emptyStore = some [] := rfl

/-- C2. On a store that takes the write, with persisted cart `cart` in which no entry has
id `X`: `addToCart(X, name, price, image)` leaves the old entries, unchanged and in their
order, followed by the new entry with quantity 1; and from the empty cart, adding `X` and
then a different id `B` leaves exactly the two entries, `X` first. -/
theorem addToCart_new_id (st : Storage) (cart : List CartItem) (X name : String)
    (price : Decimal) (image : String) (hd : st.denied = false) (hf : st.full = false)
    (hc : loadCart st = some cart) (hX : ∀ item ∈ cart, item.id ≠ X) :
    (∃ st1 a, addToCart st X name price image = some (st1, a) ∧
      loadCart st1 = some (cart ++ [⟨X, name, price, image, 1⟩])) ∧
    (cart = [] → ∀ (B nameB : String) (priceB : Decimal) (imageB : String), B ≠ X →
      ∃ st1 a1 st2 a2, addToCart st X name price image = some (st1, a1) ∧
        addToCart st1 B nameB priceB imageB = some (st2, a2) ∧
        loadCart st2 = some [⟨X, name, price, image, 1⟩, ⟨B, nameB, priceB, imageB, 1⟩]) := by
  obtain ⟨a1, h1⟩ := addToCart_of_load st cart X name price image hc
  have l1 := loadCart_saveCart st (addItem cart X name price image) hd hf
  rw [addItem_new cart X name price image hX] at h1 l1
  refine ⟨⟨_, a1, h1, l1⟩, ?_⟩
  intro he B nameB priceB imageB hB
  subst he
  obtain ⟨a2, h2⟩ := addToCart_of_load _ _ B nameB priceB imageB l1
  have l2 := loadCart_saveCart (saveCart st (cartToJSON ([] ++ [⟨X, name, price, image, 1⟩])))
    (addItem ([] ++ [⟨X, name, price, image, 1⟩]) B nameB priceB imageB)
    (by rw [saveCart_denied, hd]) (by rw [saveCart_full, hf])
  have hnew : ∀ item ∈ ([] ++ [(⟨X, name, price, image, 1⟩ : CartItem)]), item.id ≠ B := by
    intro item hi
    simp only [List.nil_append, List.mem_singleton] at hi
    subst hi
    exact fun e => hB e.symm
  rw [addItem_new _ B nameB priceB imageB hnew] at h2 l2
  exact ⟨_, a1, _, a2, h1, h2, l2⟩

theorem addToCart_new_id_witness :
    emptyStore.denied = false ∧ emptyStore.full = false ∧ loadCart emptyStore = some [] ∧
    ∃ st1 a, addToCart emptyStore "a" "Apple" (Decimal.ofInt 10) "a.png" = some (st1, a) ∧
      loadCart st1 = some ([] ++ [⟨"a", "Apple", Decimal.ofInt 10, "a.png", 1⟩]) :=
  ⟨rfl, rfl, rfl,
    (addToCart_new_id emptyStore [] "a" "Apple" (Decimal.ofInt 10) "a.png" rfl rfl rfl
      (by simp)).1⟩

theorem loadCart_saveCart_some (st : Storage) (cart new : List CartItem)
    (hc : loadCart st = some cart) :
    loadCart (saveCart st (cartToJSON new)) = some new ∨
      loadCart (saveCart st (cartToJSON new)) = some cart := by
  rw [loadCart_saveCart_cases]
  split
  · exact Or.inl rfl
  · exact Or.inr hc

/-- The handler `updateQuantity` on a row rendered for `entry`: the quantity shown is read
back, stepped by the button, stored in the first item with the id of the row, and the page
is rendered from the new store. -/
theorem updateQuantity_render (st : Storage) (page : Page) (classList : List String)
    (entry : CartItem) (cart : List CartItem) (hc : loadCart st = some cart) :
    ∃ pg, displayCart (saveCart st (cartToJSON
          (modifyFirst (fun item => decide (item.id = entry.id))
            (fun item => { item with quantity := steppedQuantity classList entry.quantity })
            cart))) page = some pg ∧
      updateQuantity st page classList (some (renderRow entry))
      = some (saveCart st (cartToJSON
          (modifyFirst (fun item => decide (item.id = entry.id))
            (fun item => { item with quantity := steppedQuantity classList entry.quantity })
            cart)), pg) := by
  have hp : parseInt (renderRow entry).quantity = some entry.quantity :=
    parseInt_intToText entry.quantity
  have hsome : ∃ c, loadCart (saveCart st (cartToJSON
      (modifyFirst (fun item => decide (item.id = entry.id))
        (fun item => { item with quantity := steppedQuantity classList entry.quantity })
        cart))) = some c := by
    rcases loadCart_saveCart_some st cart _ hc with h | h <;> exact ⟨_, h⟩
  obtain ⟨c, hcs⟩ := hsome
  obtain ⟨pg, hpg⟩ := displayCart_isSome _ page c hcs
  refine ⟨pg, hpg, ?_⟩
  have hid : (renderRow entry).productId = entry.id := rfl
  simp only [updateQuantity, hp, hc, hid]
  unfold steppedQuantity at hpg
  rw [hpg]
  rfl

theorem modifyFirst_forall (p : CartItem → Bool) (f : CartItem → CartItem)
    (P : CartItem → Prop) (hf : ∀ x, P (f x)) (l : List CartItem) (hl : ∀ x ∈ l, P x) :
    ∀ x ∈ modifyFirst p f l, P x := by
  induction l with
  | nil => intro x hx; cases hx
  | cons y l ih =>
    simp only [modifyFirst]
    split
    · intro x hx
      rcases List.mem_cons.1 hx with h | h
      · rw [h]; exact hf y
      · exact hl x (List.mem_cons_of_mem _ h)
    · intro x hx
      rcases List.mem_cons.1 hx with h | h
      · rw [h]; exact hl y (List.mem_cons_self _ _)
      · exact ih (fun z hz => hl z (List.mem_cons_of_mem _ hz)) x h

theorem loadCart_appleStore : loadCart appleStore = some [apple] := rfl

/-- C7. For every sequence of cart items, on a store that takes the write: `saveCart` of the
sequence followed by `getCart` returns the saved value, which reads as the same sequence —
same length, same order, the same id, name, price, image and quantity at every place. -/
theorem saveCart_getCart_roundtrip (st : Storage) (cart : List CartItem)
    (hd : st.denied = false) (hf : st.full = false) :
    getCart (saveCart st (cartToJSON cart)) = cartToJSON cart ∧
      loadCart (saveCart st (cartToJSON cart)) = some cart :=
  ⟨getCart_saveCart st _ hd hf (cartToJSON_canonical cart), loadCart_saveCart st cart hd hf⟩

theorem saveCart_getCart_roundtrip_witness :
    emptyStore.denied = false ∧ emptyStore.full = false ∧
    getCart (saveCart emptyStore (cartToJSON [apple, pear])) = cartToJSON [apple, pear] ∧
      loadCart (saveCart emptyStore (cartToJSON [apple, pear])) = some [apple, pear] :=
  ⟨rfl, rfl, saveCart_getCart_roundtrip emptyStore [apple, pear] rfl rfl⟩

/-- Where `getCart` does answer the empty array: the entry is absent or empty, the storage
cannot be read, or the text is not JSON. -/
theorem getCart_empty (st : Storage)
    (h : st.denied = true ∨ st.item = none ∨ st.item = some "" ∨
      ∃ s, st.item = some s ∧ parse s = none) :
    getCart st = JSON.arr [] := by
  unfold getCart
  by_cases hd : st.denied = true
  · simp [hd]
  · rcases h with h | h | h | ⟨s, h, hp⟩
    · exact absurd h hd
    · simp [hd, h]
    · simp [hd, h]
    · simp only [hd, h, hp, Bool.false_eq_true, if_false]
      split <;> rfl

/-- C8. Texts that parse to something other than an array are not turned into the empty
cart: for the stored texts `null`, `5` and `{}` the function `getCart` returns the parsed
value — `null`, the number 5, the empty object — and none of these is the empty array (nor
a sequence of cart items). -/
theorem getCart_returns_non_array :
    getCart ⟨some "null", false, false⟩ = JSON.null ∧
    getCart ⟨some "5", false, false⟩ = JSON.num (Decimal.ofInt 5) ∧
    getCart ⟨some "\x7b\x7d", false, false⟩ = JSON.obj [] ∧
    JSON.null ≠ JSON.arr [] ∧ JSON.num (Decimal.ofInt 5) ≠ JSON.arr [] ∧
    JSON.obj [] ≠ JSON.arr [] ∧
    loadCart ⟨some "null", false, false⟩ = none :=
  ⟨rfl, rfl, rfl, (by intro h; cases h), (by intro h; cases h), (by intro h; cases h), rfl⟩


/-! ## Rendering -/

theorem renderItems_foldl (cart : List CartItem) (rows : List Row) (t : ℚ) (n : Int) :
    cart.foldl (fun acc item =>
      (acc.1 ++ [renderRow item], acc.2.1 + item.price.toRat * item.quantity,
        acc.2.2 + item.quantity)) (rows, t, n)
      = (rows ++ cart.map renderRow, t + cartTotal cart, n + itemCount cart) := by
  induction cart generalizing rows t n with
  | nil => simp [cartTotal, itemCount]
  | cons item cart ih =>
    rw [List.foldl_cons, ih]
    simp only [cartTotal, itemCount, List.map_cons, List.sum_cons, List.append_assoc,
      List.singleton_append, add_assoc]

theorem renderItems_eq (cart : List CartItem) :
    renderItems cart = (cart.map renderRow, cartTotal cart, itemCount cart) := by
  unfold renderItems
  rw [renderItems_foldl]
  simp

theorem displayCart_nonempty (st : Storage) (page : Page) (cart : List CartItem)
    (hc : loadCart st = some cart) (hne : cart ≠ []) :
    ∃ pg, displayCart st page = some pg ∧
      pg.total = page.total.map (fun t => (updateTotal t (cartTotal cart) (itemCount cart)).1) ∧
      pg.cartList = page.cartList.map (fun _ => (cart.map renderRow).map ListChild.item) := by
  have hlen : ¬ cart.length = 0 := by
    intro h
    exact hne (List.length_eq_zero.1 h)
  unfold displayCart
  rw [hc]
  simp only [hlen, if_false, renderItems_eq]
  cases ht : page.total with
  | none =>
    refine ⟨_, rfl, by simp, ?_⟩
    cases page.cartList <;> simp
  | some t =>
    refine ⟨_, rfl, by simp, ?_⟩
    cases page.cartList <;> simp

theorem toFixed2_twenty : toFixed2 20 = ['2', '0', '.', '0', '0'] := by
  have h1 : ¬ ((20 : ℚ) < 0) := by norm_num
  have h2 : Rat.floor ((20 : ℚ) * 100 + 1 / 2) = 2000 := by
    show ⌊(20 : ℚ) * 100 + 1 / 2⌋ = 2000
    rw [Int.floor_eq_iff]
    constructor <;> norm_num
  unfold toFixed2
  simp only [h1, if_false, h2]
  decide


/-! ## The total and the subtotal text -/

theorem anyHasP_text (s : String) : Node.anyHasP [Node.text s] = false := by
  simp [Node.anyHasP, Node.hasP]

/-- After `updateTotal` has run once, running it again leaves the nodes before the total
element — the subtotal text — as they are. -/
theorem updateTotal_before_frozen (t : TotalRegion) (x y : ℚ) (n m : Int) :
    (updateTotal (updateTotal t x n).1 y m).1.before = (updateTotal t x n).1.before := by
  by_cases hb : Node.anyHasP t.before = true
  · by_cases hp : t.tag = "p"
    · simp [updateTotal, hb, hp, anyHasP_text]
    · simp [updateTotal, hb, hp, anyHasP_text, Node.anyHasP]
  · by_cases hp : t.tag = "p"
    · simp [updateTotal, hb, hp]
    · by_cases ha : Node.anyHasP t.after = true
      · simp [updateTotal, hb, hp, ha, anyHasP_text, Node.anyHasP]
      · simp [updateTotal, hb, hp, ha]

/-- The subtotal text is written at most once: whatever the page and the carts, the render
that follows a first render of a non-empty cart leaves the nodes before the total element
as the first render left them. -/
theorem subtotal_label_frozen (st st' : Storage) (page : Page) (cart cart' : List CartItem)
    (hc : loadCart st = some cart) (hne : cart ≠ [])
    (hc' : loadCart st' = some cart') (hne' : cart' ≠ []) :
    ∃ pg pg', displayCart st page = some pg ∧ displayCart st' pg = some pg' ∧
      pg'.total.map TotalRegion.before = pg.total.map TotalRegion.before := by
  obtain ⟨pg, h1, ht1, _⟩ := displayCart_nonempty st page cart hc hne
  obtain ⟨pg', h2, ht2, _⟩ := displayCart_nonempty st' pg cart' hc' hne'
  refine ⟨pg, pg', h1, h2, ?_⟩
  rw [ht2, ht1]
  cases page.total with
  | none => rfl
  | some t => simp [updateTotal_before_frozen]

/-- C10. The subtotal text is not rewritten on a re-render. From a page whose total element
is a `span` next to the subtotal paragraph and a persisted cart of one apple: the first
`displayCart` writes `Subtotal (1 items): ` and moves the total element into the paragraph;
after the increase button the persisted cart holds two items and the total reads `$20.00`,
but the subtotal text still says one item. -/
theorem subtotal_label_stale :
    ∃ pg1 st2 pg2 t1 t2,
      displayCart appleStore blankPage = some pg1 ∧ pg1.total = some t1 ∧
      t1.before = [Node.text "Subtotal (1 items): "] ∧
      updateQuantity appleStore pg1 increaseButton (some (renderRow apple))
        = some (st2, pg2) ∧
      loadCart st2 = some [{ apple with quantity := 2 }] ∧
      itemCount [{ apple with quantity := 2 }] = 2 ∧
      subtotalLabel 2 = "Subtotal (2 items): " ∧
      pg2.total = some t2 ∧ t2.text = "$20.00" ∧
      t2.before = [Node.text "Subtotal (1 items): "] := by
  obtain ⟨pg1, h1, ht1, _⟩ := displayCart_nonempty appleStore blankPage [apple] rfl (by simp)
  obtain ⟨pg2, hd2, hu2⟩ := updateQuantity_render appleStore pg1 increaseButton apple
    [apple] rfl
  have hm : modifyFirst (fun item => decide (item.id = apple.id))
      (fun item => { item with quantity := steppedQuantity increaseButton apple.quantity })
      [apple] = [{ apple with quantity := 2 }] := by
    simp [modifyFirst, steppedQuantity, increaseButton, apple]
  rw [hm] at hd2 hu2
  have hl2 := loadCart_saveCart appleStore [{ apple with quantity := 2 }] rfl rfl
  obtain ⟨pg2', hd2', ht2, _⟩ := displayCart_nonempty _ pg1 _ hl2 (by simp)
  rw [hd2] at hd2'
  cases hd2'
  have hsum : cartTotal [{ apple with quantity := 2 }] = 20 := by
    simp only [cartTotal, List.map_cons, List.map_nil, List.sum_cons, List.sum_nil,
      Decimal.toRat, Decimal.ofInt, apple]
    norm_num
  have hb : blankPage.total = some ⟨"div",
      [Node.element "p" [Node.text "Subtotal (0 items):"]], "span", "$0.00", []⟩ := rfl
  rw [hb] at ht1
  simp only [Option.map_some'] at ht1
  rw [ht1] at ht2
  simp only [Option.map_some'] at ht2
  refine ⟨pg1, _, pg2, _, _, h1, ht1, ?_, hu2, hl2, rfl, rfl, ht2, ?_, ?_⟩
  · simp [updateTotal, Node.anyHasP, Node.hasP]
    rfl
  · rw [hsum]
    simp [updateTotal, Node.anyHasP, Node.hasP, toFixed2_twenty]
  · rw [updateTotal_before_frozen]
    simp [updateTotal, Node.anyHasP, Node.hasP]
    rfl


end Cart
